import Mathlib

/-!
Shallow embedding of the Resume-Management-AI repository
(`app.py`, `config.py`, `document_processor.py`, `vector_store.py`).

Text is modelled as `List Char` (Python `str`), metadata dictionaries as
association lists, and the external parsers / vector database / language
model are parameters whose contracts are stated where the source code
delegates to them.
-/

set_option maxRecDepth 16384

/-! ### Path helpers (`os.path.basename`, `os.path.splitext`, `str.lower`) -/

/-- The last segment of a character list split on `sep` (tail-recursive,
`acc` holds the current segment reversed). -/
def lastSegmentBy (sep : Char) : List Char → List Char → List Char
  | acc, [] => acc.reverse
  | acc, c :: cs => if c = sep then lastSegmentBy sep [] cs else lastSegmentBy sep (c :: acc) cs

/-- `os.path.basename`: the part of the path after the last slash. -/
def basename (p : String) : String :=
  String.mk (lastSegmentBy '/' [] p.data)

/-- Suffix of a character list starting at its last dot, if any. -/
def extAfterLastDot : List Char → Option (List Char)
  | [] => none
  | c :: cs =>
    match extAfterLastDot cs with
    | some e => some e
    | none => if c = '.' then some (c :: cs) else none

/-- `os.path.splitext(p)[1]`: the extension of the basename, including the
dot; leading dots of the basename do not start an extension. -/
def splitextExt (p : String) : String :=
  let b := (basename p).data
  let lead := (b.takeWhile (fun c => c = '.')).length
  match extAfterLastDot (b.drop lead) with
  | some e => String.mk e
  | none => ""

/-- `str.lower` (ASCII, as used on extensions). -/
def toLowerStr (s : String) : String :=
  String.mk (s.data.map Char.toLower)

/-! ### Data model: documents and metadata (`langchain.schema.Document`) -/

/-- A langchain `Document`: page text plus a metadata dictionary. -/
structure Document where
  page_content : List Char
  metadata : List (String × String)
deriving DecidableEq, Repr

/-- Python dict assignment `m[k] = v`, observed through `List.lookup`:
the new binding shadows any previous one. -/
def setMeta (m : List (String × String)) (k v : String) : List (String × String) :=
  (k, v) :: m

/-- The three external parsers (`PyPDFLoader`, `TextLoader`, `Docx2txtLoader`):
each maps a file path to a parse result (list of raw text segments) or a
parse-failure message.  `TextLoader` serves both `.txt` and `.md`. -/
structure Loaders where
  pdf : String → Except String (List Document)
  txt : String → Except String (List Document)
  docx : String → Except String (List Document)

/-- The exceptions that can escape the body of
`DocumentProcessor.load_document`'s `try` block. -/
inductive LoadErr where
  | valueError (msg : String)
  | loaderError (msg : String)
deriving DecidableEq

/-- `str(e)` for the exceptions above. -/
def LoadErr.str : LoadErr → String
  | .valueError m => m
  | .loaderError m => m

/-- Body of the `try` block of `DocumentProcessor.load_document`:
select a parser by lowercased extension (raising `ValueError` for an
unsupported one), run it, then set `metadata['filename']` to the basename
on every segment. -/
def load_document_try (L : Loaders) (file_path : String) : Except LoadErr (List Document) :=
  (if toLowerStr (splitextExt file_path) = ".pdf" then
     (L.pdf file_path).mapError LoadErr.loaderError
   else if toLowerStr (splitextExt file_path) = ".txt" ∨ toLowerStr (splitextExt file_path) = ".md" then
     (L.txt file_path).mapError LoadErr.loaderError
   else if toLowerStr (splitextExt file_path) = ".docx" then
     (L.docx file_path).mapError LoadErr.loaderError
   else
     Except.error
       (LoadErr.valueError ("Unsupported file type: " ++ toLowerStr (splitextExt file_path)))).map
    (fun documents =>
      documents.map (fun d =>
        { d with metadata := setMeta d.metadata "filename" (basename file_path) }))

/-- `DocumentProcessor.load_document`: any exception from the `try` body is
caught, shown via `st.error`, and an empty list is returned.  The result is
the returned document list together with the UI error messages emitted. -/
def load_document (L : Loaders) (file_path : String) : List Document × List String :=
  match load_document_try L file_path with
  | .ok documents => (documents, [])
  | .error e => ([], ["Error loading " ++ file_path ++ ": " ++ e.str])

/-! ### Chunker: `langchain.text_splitter.RecursiveCharacterTextSplitter`
as constructed in `DocumentProcessor.__init__` (default separators
`["\n\n", "\n", " ", ""]`, `keep_separator=True`, `length_function=len`,
`strip_whitespace=True`, `chunk_size=config.CHUNK_SIZE`,
`chunk_overlap=config.CHUNK_OVERLAP`). -/

/-- `config.CHUNK_SIZE` (smaller chunks for resumes). -/
def CHUNK_SIZE : Nat := 800

/-- `config.CHUNK_OVERLAP`. -/
def CHUNK_OVERLAP : Nat := 100

/-- The splitter's default separator list. -/
def defaultSeparators : List (List Char) :=
  [['\n', '\n'], ['\n'], [' '], []]

/-- `re.search` of an escaped literal separator: substring occurrence. -/
def containsSub (sep : List Char) : List Char → Bool
  | [] => sep.isPrefixOf []
  | c :: cs => sep.isPrefixOf (c :: cs) || containsSub sep cs

/-- `re.split` on a nonempty literal separator: the pieces of `text`
between consecutive non-overlapping occurrences of `sep`, scanned left to
right.  (For `sep = []` this degenerates to `[text]`; that case is handled
separately in `splitWithSep`.) -/
def splitOnSepFuel (sep : List Char) : Nat → List Char → List (List Char)
  | _, [] => [[]]
  | 0, text => [text]
  | fuel + 1, c :: rest =>
    if 0 < sep.length ∧ sep.isPrefixOf (c :: rest) = true then
      [] :: splitOnSepFuel sep fuel (rest.drop (sep.length - 1))
    else
      match splitOnSepFuel sep fuel rest with
      | [] => [[c]]
      | p :: ps => (c :: p) :: ps

/-- `splitOnSepFuel` with enough fuel: the scan consumes at least one
character per step, so `text.length` steps always reach the end. -/
def splitOnSep (sep : List Char) (text : List Char) : List (List Char) :=
  splitOnSepFuel sep text.length text

/-- `_split_text_with_regex(text, re.escape(sep), keep_separator=True)`:
each occurrence of the separator is kept, glued onto the piece that follows
it; empty pieces are filtered out.  For the empty separator the text is
split into single characters. -/
def splitWithSep (sep : List Char) (text : List Char) : List (List Char) :=
  (if sep = [] then text.map (fun c => [c])
   else
     match splitOnSep sep text with
     | [] => []
     | p :: ps => p :: ps.map (fun q => sep ++ q)).filter (fun s => !s.isEmpty)

/-- Separator selection at the top of `_split_text`: the first separator in
the list that is empty or occurs in the text is chosen, and the remaining
separators become the recursion list; if none matches, the last separator
is chosen with an empty recursion list. -/
def chooseSep : List (List Char) → List Char → List Char × List (List Char)
  | [], _ => ([], [])
  | [s], text =>
    if s = [] then ([], [])
    else if containsSub s text then (s, []) else (s, [])
  | s :: s2 :: rest, text =>
    if s = [] then ([], [])
    else if containsSub s text then (s, s2 :: rest)
    else chooseSep (s2 :: rest) text

/-- Total character length of a list of splits (`keep_separator=True`
makes the merge separator empty, so the running `total` in `_merge_splits`
is exactly this sum). -/
def sumLen (l : List (List Char)) : Nat :=
  (l.map List.length).sum

/-- `str.strip()` as applied by `_join_docs` (`strip_whitespace=True`). -/
def trimChars (l : List Char) : List Char :=
  ((l.dropWhile Char.isWhitespace).reverse.dropWhile Char.isWhitespace).reverse

/-- `_join_docs(current_doc, separator="")`: concatenate, strip, drop if
empty. -/
def joinDocs (cur : List (List Char)) : Option (List Char) :=
  let text := trimChars cur.flatten
  if text = [] then none else some text

/-- The `while` loop inside `_merge_splits` that pops leading splits from
`current_doc` until the kept tail fits the overlap budget and, together
with the incoming split of length `lend`, the chunk size. -/
def popOverlap (size overlap lend : Nat) : List (List Char) → List (List Char)
  | [] => []
  | c :: cs =>
    if sumLen (c :: cs) > overlap ∨ (sumLen (c :: cs) + lend > size ∧ 0 < sumLen (c :: cs)) then
      popOverlap size overlap lend cs
    else c :: cs

/-- The `for` loop of `_merge_splits` (merge separator is empty):
accumulate splits into `current_doc`; when the next split would overflow
the chunk size, emit the joined current chunk and keep an overlap tail. -/
def mergeLoop (size overlap : Nat) : List (List Char) → List (List Char) → List (List Char)
  | cur, [] => (joinDocs cur).toList
  | cur, d :: ds =>
    if sumLen cur + d.length > size then
      if cur = [] then mergeLoop size overlap [d] ds
      else
        (joinDocs cur).toList ++
          mergeLoop size overlap (popOverlap size overlap d.length cur ++ [d]) ds
    else mergeLoop size overlap (cur ++ [d]) ds

/-- `_merge_splits(splits, separator="")`. -/
def mergeSplits (size overlap : Nat) (splits : List (List Char)) : List (List Char) :=
  mergeLoop size overlap [] splits

/-- The `for s in splits` loop of `_split_text`: short splits are
accumulated and merged; an oversized split flushes the accumulator and is
either emitted as-is (no separators left) or split recursively
(`recurse`). -/
def splitGo (size : Nat) (mergeF : List (List Char) → List (List Char))
    (recurse : Option (List Char → List (List Char))) :
    List (List Char) → List (List Char) → List (List Char)
  | good, [] => if good = [] then [] else mergeF good
  | good, s :: ss =>
    if s.length < size then splitGo size mergeF recurse (good ++ [s]) ss
    else
      (if good = [] then [] else mergeF good) ++
        (match recurse with
         | none => [s]
         | some f => f s) ++
        splitGo size mergeF recurse [] ss

/-- `_split_text(text, separators)`, with the recursion depth bounded by
the length of the separator list (each recursive call uses a strictly
shorter list, so `separators.length` fuel is exact). -/
def splitTextRec (size overlap : Nat) : Nat → List (List Char) → List Char → List (List Char)
  | 0, _, _ => []
  | fuel + 1, separators, text =>
    let c := chooseSep separators text
    let splits := splitWithSep c.1 text
    splitGo size (mergeSplits size overlap)
      (if c.2 = [] then none else some (splitTextRec size overlap fuel c.2)) [] splits

/-- `split_text`: recursive splitting starting from the full separator
list. -/
def split_text (size overlap : Nat) (text : List Char) : List (List Char) :=
  splitTextRec size overlap defaultSeparators.length defaultSeparators text

/-- `TextSplitter.split_documents` / `create_documents`: each chunk of a
document's text becomes a new `Document` carrying a copy of the parent's
metadata. -/
def split_documents (size overlap : Nat) (documents : List Document) : List Document :=
  documents.flatMap (fun d =>
    (split_text size overlap d.page_content).map (fun chunk => ⟨chunk, d.metadata⟩))

/-- The `DocumentProcessor`'s splitter as configured in `__init__`. -/
def textSplitterSplit : List Document → List Document :=
  split_documents CHUNK_SIZE CHUNK_OVERLAP

/-- `DocumentProcessor.process_documents`: load every file, concatenate
the loaded segments, and split them into chunks (empty input short-circuits
to an empty list). -/
def process_documents (L : Loaders) (file_paths : List String) : List Document :=
  let all_documents := (file_paths.map (fun p => (load_document L p).1)).flatten
  if all_documents = [] then [] else textSplitterSplit all_documents

/-! ### Vector store (`vector_store.py`)

The ChromaDB client and the langchain `Chroma` wrapper are external; the
state carries what the source observes of them: whether the
`self.vector_store` handle was set, and the contents of the single named
collection `config.COLLECTION_NAME` (`none` = collection absent in the
client, `some docs` = present with those documents). -/

/-- Observable state of a `VectorStore` instance. -/
structure VectorStoreS where
  /-- `self.vector_store is not None`. -/
  vectorStoreInit : Bool
  /-- Contents of the named collection in the Chroma client. -/
  coll : Option (List Document)
deriving DecidableEq

/-- `VectorStore._initialize_vector_store`: constructing
`Chroma(client=..., collection_name=...)` gets or creates the collection
and sets the handle. -/
def init_vector_store (s : VectorStoreS) : VectorStoreS :=
  { vectorStoreInit := true, coll := some (s.coll.getD []) }

/-- `VectorStore.__init__` on a client whose persisted collection state is
`persisted`. -/
def mkVectorStore (persisted : Option (List Document)) : VectorStoreS :=
  init_vector_store { vectorStoreInit := false, coll := persisted }

/-- `VectorStore.add_documents`: an empty list returns `False`
immediately; otherwise the documents are embedded and added to the
collection (any exception — including an unset handle — is caught and
yields `False`). -/
def add_documents (s : VectorStoreS) (documents : List Document) : VectorStoreS × Bool :=
  if documents = [] then (s, false)
  else
    match s.vectorStoreInit, s.coll with
    | true, some c => ({ s with coll := some (c ++ documents) }, true)
    | _, _ => (s, false)

/-- `VectorStore.get_retriever(k=5)`: `None` when the handle is unset,
otherwise a similarity retriever carrying `k`. -/
def get_retriever (s : VectorStoreS) (k : Nat := 5) : Option Nat :=
  if s.vectorStoreInit then some k else none

/-- Insert a document into a list sorted by decreasing score. -/
def insertDesc (f : Document → Int) (a : Document) : List Document → List Document
  | [] => [a]
  | b :: bs => if f b ≤ f a then a :: b :: bs else b :: insertDesc f a bs

/-- Sort documents by decreasing score. -/
def sortDesc (f : Document → Int) : List Document → List Document
  | [] => []
  | a :: as => insertDesc f a (sortDesc f as)

/-- Modelled from the external contract of Chroma similarity search as
used through `as_retriever(search_type="similarity", search_kwargs={"k": k})`:
the `k` documents of the collection most similar to the query, in
decreasing similarity order (`sim q d` scores document `d` against query
`q`); empty when the collection is empty or absent. -/
def retrieveDocs (sim : String → Document → Int) (s : VectorStoreS) (q : String) (k : Nat) :
    List Document :=
  (sortDesc (sim q) (s.coll.getD [])).take k

/-- `VectorStore.clear_database`: `delete_collection` raises if the
collection is absent (caught, `False`); otherwise the collection is
deleted and re-created empty, and `True` is returned. -/
def clear_database (s : VectorStoreS) : VectorStoreS × Bool :=
  match s.coll with
  | some _ => (init_vector_store { s with coll := none }, true)
  | none => (s, false)

/-! ### Prompt templates (`config.RESUME_PROMPTS`) and the prompt selector
(`ResumeAnalyzer.get_prompt_template`). -/

/-- `config.RESUME_PROMPTS["general"]`. -/
def generalTemplate : String :=
  "You are an expert resume analyzer and technical recruiter. \n    Analyze the resume context below to provide comprehensive insights about the candidate.\n\n    Context: {context}\n    Question: {question}\n\n    Provide structured, professional analysis focusing on qualifications, experience, and role fit.\n    Answer: "

/-- `config.RESUME_PROMPTS["technical"]`. -/
def technicalTemplate : String :=
  "You are a senior technical recruiter. Focus on technical skills analysis.\n    \n    Extract and analyze:\n    - Programming languages and proficiency\n    - Frameworks, tools, and technologies\n    - Years of experience with each skill\n    - Technical certifications\n    - Project complexity indicators\n\n    Context: {context}\n    Question: {question}\n\n    Structure as: 1) Primary Skills 2) Secondary Skills 3) Tools/Frameworks 4) Experience Level\n    Answer: "

/-- `config.RESUME_PROMPTS["experience"]`. -/
def experienceTemplate : String :=
  "You are an HR professional analyzing work experience and career progression.\n    \n    Focus on:\n    - Career timeline and progression\n    - Job responsibilities and scope\n    - Achievements and impact\n    - Leadership and management experience\n    - Industry background\n\n    Context: {context}\n    Question: {question}\n\n    Structure as: 1) Career Summary 2) Key Positions 3) Achievements 4) Progression Analysis\n    Answer: "

/-- `config.RESUME_PROMPTS["match"]`. -/
def matchTemplate : String :=
  "You are evaluating candidate-role fit. Analyze how well this candidate matches specific requirements.\n    \n    Assess:\n    - Required skills alignment\n    - Experience level match\n    - Industry background relevance\n    - Growth potential\n    - Potential concerns\n\n    Context: {context}\n    Question: {question}\n\n    Structure as: 1) Match Score 2) Strengths 3) Gaps 4) Recommendations\n    Answer: "

/-- `config.RESUME_PROMPTS` as an association list. -/
def RESUME_PROMPTS : List (String × String) :=
  [("general", generalTemplate), ("technical", technicalTemplate),
   ("experience", experienceTemplate), ("match", matchTemplate)]

/-- Python `dict.get(key, default)`. -/
def dictGet (d : List (String × String)) (key dflt : String) : String :=
  (d.lookup key).getD dflt

/-- A langchain `PromptTemplate` as built in `get_prompt_template`. -/
structure PromptTemplateS where
  template : String
  input_variables : List String
deriving DecidableEq

/-- `ResumeAnalyzer.get_prompt_template`: look the mode up in
`RESUME_PROMPTS`, falling back to the `"general"` template. -/
def get_prompt_template (prompt_type : String) : PromptTemplateS :=
  { template := dictGet RESUME_PROMPTS prompt_type generalTemplate,
    input_variables := ["context", "question"] }

/-- Rendering a prompt template: substitute the context and question for
the two placeholders. -/
def formatPrompt (template context question : String) : String :=
  (template.replace "{context}" context).replace "{question}" question

/-! ### Answer orchestrator (`ResumeAnalyzer`, `app.py`) -/

/-- A `RetrievalQA` chain as assembled in `setup_qa_chain`: the
retriever's `k` plus the chosen prompt template. -/
structure QAChainS where
  k : Nat
  prompt : PromptTemplateS
deriving DecidableEq

/-- `ResumeAnalyzer.setup_qa_chain`: `get_retriever(k=5)`; `None` aborts,
otherwise the chain is built with the selected prompt. -/
def setup_qa_chain (s : VectorStoreS) (prompt_type : String := "general") : Option QAChainS :=
  match get_retriever s 5 with
  | none => none
  | some k => some { k := k, prompt := get_prompt_template prompt_type }

/-- Running the `RetrievalQA` "stuff" chain on a query: retrieve, join the
retrieved page contents with the default document separator, render the
prompt, and invoke the language model, returning the answer text and the
source documents. -/
def run_qa_chain (llm : String → String) (sim : String → Document → Int)
    (s : VectorStoreS) (ch : QAChainS) (query : String) : String × List Document :=
  let sources := retrieveDocs sim s query ch.k
  let context := String.intercalate "\n\n" (sources.map (fun d => String.mk d.page_content))
  (llm (formatPrompt ch.prompt.template context query), sources)

/-- An uploaded file as seen by `process_uploaded_files` (its bytes live
behind the temp path given to the loaders). -/
structure UploadedFile where
  name : String
deriving DecidableEq

/-- The temporary path for the `i`-th uploaded file:
`NamedTemporaryFile(suffix=f".{name.split('.')[-1]}")`. -/
def tmpPath (i : Nat) (name : String) : String :=
  "/tmp/upload" ++ toString i ++ "." ++ String.mk (lastSegmentBy '.' [] name.data)

/-- The temp files written for a list of uploads. -/
def tempPaths (uploaded : List UploadedFile) : List String :=
  uploaded.enum.map (fun p => tmpPath p.1 p.2.name)

/-- `ResumeAnalyzer.process_uploaded_files`: save uploads to temp files,
parse and chunk them, add the chunks to the vector store, and extend the
session's processed-resume list only when the add succeeded.  Returns the
updated store state, the updated `st.session_state.resumes_processed`,
and the success flag. -/
def process_uploaded_files (L : Loaders) (vs : VectorStoreS)
    (resumes_processed : List String) (uploaded : List UploadedFile) :
    VectorStoreS × List String × Bool :=
  if uploaded = [] then (vs, resumes_processed, false)
  else
    let processed_names := uploaded.map UploadedFile.name
    let documents := process_documents L (tempPaths uploaded)
    if documents = [] then (vs, resumes_processed, false)
    else
      let r := add_documents vs documents
      if r.2 then (r.1, resumes_processed ++ processed_names, true)
      else (r.1, resumes_processed, false)

/-! ### Sample instantiations of the external parameters, used by
witnesses. -/

/-- Loaders whose three parsers all succeed with one nonempty segment. -/
def sampleLoaders : Loaders where
  pdf := fun p => Except.ok [⟨"pdf text".data, [("source", p)]⟩]
  txt := fun p => Except.ok [⟨"Experienced Python developer".data, [("source", p)]⟩]
  docx := fun p => Except.ok [⟨"docx text".data, [("source", p)]⟩]

/-- Loaders whose PDF parser fails (a corrupt file), the others succeed. -/
def failingPdfLoaders : Loaders where
  pdf := fun _ => Except.error "bad pdf"
  txt := fun p => Except.ok [⟨"Experienced Python developer".data, [("source", p)]⟩]
  docx := fun p => Except.ok [⟨"docx text".data, [("source", p)]⟩]

/-! ### Lemmas about the retrieval model -/

theorem mem_insertDesc {f : Document → Int} {a b : Document} {l : List Document}
    (h : b ∈ insertDesc f a l) : b = a ∨ b ∈ l := by
  induction l with
  | nil => simpa [insertDesc] using h
  | cons c cs ih =>
    by_cases hc : f c ≤ f a
    · simp only [insertDesc, if_pos hc, List.mem_cons] at h
      simp only [List.mem_cons]
      tauto
    · simp only [insertDesc, if_neg hc, List.mem_cons] at h
      rcases h with rfl | h
      · simp
      · rcases ih h with rfl | h <;> simp [h]

theorem pairwise_insertDesc {f : Document → Int} {a : Document} {l : List Document}
    (h : l.Pairwise (fun x y => f y ≤ f x)) :
    (insertDesc f a l).Pairwise (fun x y => f y ≤ f x) := by
  induction l with
  | nil => simp [insertDesc]
  | cons b bs ih =>
    rw [List.pairwise_cons] at h
    obtain ⟨hb, hbs⟩ := h
    by_cases hc : f b ≤ f a
    · simp only [insertDesc, if_pos hc]
      refine List.Pairwise.cons ?_ (List.Pairwise.cons hb hbs)
      intro x hx
      rcases List.mem_cons.mp hx with rfl | hx
      · exact hc
      · exact le_trans (hb x hx) hc
    · simp only [insertDesc, if_neg hc]
      refine List.Pairwise.cons ?_ (ih hbs)
      intro x hx
      rcases mem_insertDesc hx with rfl | hx
      · exact le_of_lt (not_le.mp hc)
      · exact hb x hx

theorem pairwise_sortDesc (f : Document → Int) (l : List Document) :
    (sortDesc f l).Pairwise (fun x y => f y ≤ f x) := by
  induction l with
  | nil => simp [sortDesc]
  | cons a as ih => exact pairwise_insertDesc ih

/-- C3: `retrieve(q, k)` returns at most `k` chunks, ordered by decreasing
similarity to the query embedding, and `get_retriever`'s `k` defaults
to 5. -/
theorem C3_retrieve_at_most_k_sorted (sim : String → Document → Int) (s : VectorStoreS)
    (q : String) (k : Nat) :
    (retrieveDocs sim s q k).length ≤ k ∧
    (retrieveDocs sim s q k).Pairwise (fun a b => sim q b ≤ sim q a) ∧
    get_retriever s = get_retriever s 5 := by
  refine ⟨List.length_take_le _ _, ?_, rfl⟩
  exact List.Pairwise.sublist (List.take_sublist _ _) (pairwise_sortDesc (sim q) _)

/-- C9: `add_documents` on an empty list returns `False` without touching
the collection. -/
theorem C9_add_documents_empty (s : VectorStoreS) :
    add_documents s [] = (s, false) := by
  simp [add_documents]

/-- The collection after `clear_database`: unchanged (`none`) when the
delete raised, an empty collection otherwise. -/
theorem clear_database_coll (s : VectorStoreS) :
    (clear_database s).1.coll = if s.coll = none then none else some [] := by
  cases hc : s.coll <;> simp [clear_database, hc, init_vector_store]

/-- Retrieval on an empty-or-absent collection is empty. -/
theorem retrieveDocs_empty (sim : String → Document → Int) (s : VectorStoreS)
    (q : String) (k : Nat) (h : s.coll = none ∨ s.coll = some []) :
    retrieveDocs sim s q k = [] := by
  rcases h with h | h <;> simp [retrieveDocs, h, sortDesc]

/-- C5: after `add` then `clear`, retrieval is empty on any query; `clear`
deletes the collection and recreates an empty one, and is idempotent. -/
theorem C5_clear_after_add (s : VectorStoreS) (docs : List Document)
    (sim : String → Document → Int) (q : String) (k : Nat) :
    retrieveDocs sim (clear_database (add_documents s docs).1).1 q k = [] ∧
    (clear_database s).1.coll = (if s.coll = none then none else some []) ∧
    clear_database (clear_database s).1 = clear_database s := by
  refine ⟨?_, clear_database_coll s, ?_⟩
  · apply retrieveDocs_empty
    rw [clear_database_coll]
    by_cases h : (add_documents s docs).1.coll = none <;> simp [h]
  · cases hc : s.coll with
    | none => simp [clear_database, hc]
    | some c => simp [clear_database, hc, init_vector_store]

/-- C6: an unrecognized mode string selects the `"general"` template, so
the rendered prompt agrees with mode `"general"` on identical context and
question. -/
theorem C6_unknown_mode_falls_back (m : String)
    (hm : m ∉ ["general", "technical", "experience", "match"]) (context question : String) :
    formatPrompt (get_prompt_template m).template context question =
      formatPrompt (get_prompt_template "general").template context question := by
  simp only [List.mem_cons, List.not_mem_nil, or_false, not_or] at hm
  obtain ⟨h1, h2, h3, h4⟩ := hm
  have b1 : (m == "general") = false := beq_eq_false_iff_ne.mpr h1
  have b2 : (m == "technical") = false := beq_eq_false_iff_ne.mpr h2
  have b3 : (m == "experience") = false := beq_eq_false_iff_ne.mpr h3
  have b4 : (m == "match") = false := beq_eq_false_iff_ne.mpr h4
  simp [get_prompt_template, dictGet, RESUME_PROMPTS, List.lookup, b1, b2, b3, b4]

/-- C6 witness: the unknown mode `"summary"` renders like `"general"`. -/
theorem C6_witness :
    ("summary" ∉ ["general", "technical", "experience", "match"]) ∧
    formatPrompt (get_prompt_template "summary").template "ctx" "q" =
      formatPrompt (get_prompt_template "general").template "ctx" "q" :=
  ⟨by decide, C6_unknown_mode_falls_back "summary" (by decide) "ctx" "q"⟩

/-- C1 counterexample: with an initialized but empty collection, retrieval
yields no chunks, yet `setup_qa_chain` still returns a chain (it does not
fail), and running that chain invokes the language model on the prompt
rendered with empty context. -/
theorem C1_counterexample :
    retrieveDocs (fun _ _ => 0) (mkVectorStore none) "What are the skills?" 5 = [] ∧
    setup_qa_chain (mkVectorStore none) "general" =
      some { k := 5, prompt := get_prompt_template "general" } ∧
    (run_qa_chain (fun prompt => "LLM(" ++ prompt ++ ")") (fun _ _ => 0) (mkVectorStore none)
        { k := 5, prompt := get_prompt_template "general" } "What are the skills?").1 =
      "LLM(" ++ formatPrompt generalTemplate "" "What are the skills?" ++ ")" := by
  exact ⟨rfl, rfl, rfl⟩

/-- C1 (amended): `setup_qa_chain` fails (returns no chain, so the model
is never invoked) exactly when the vector-store handle is unset; with an
initialized store — even an empty collection — the chain is built with
`k = 5` and running it invokes the language model on the rendered
prompt. -/
theorem C1_fails_only_when_uninitialized (s : VectorStoreS) (prompt_type : String)
    (llm : String → String) (sim : String → Document → Int) (q : String) :
    (s.vectorStoreInit = false → setup_qa_chain s prompt_type = none) ∧
    (s.vectorStoreInit = true →
      setup_qa_chain s prompt_type =
          some { k := 5, prompt := get_prompt_template prompt_type } ∧
        (run_qa_chain llm sim s { k := 5, prompt := get_prompt_template prompt_type } q).1 =
          llm (formatPrompt (get_prompt_template prompt_type).template
            (String.intercalate "\n\n"
              ((retrieveDocs sim s q 5).map (fun d => String.mk d.page_content))) q)) := by
  constructor <;> intro h <;>
    simp [setup_qa_chain, get_retriever, h, run_qa_chain]

/-- C1 witness: both branches of the amended statement at concrete
inputs. -/
theorem C1_witness :
    setup_qa_chain { vectorStoreInit := false, coll := none } "technical" = none ∧
    (setup_qa_chain (mkVectorStore none) "technical" =
        some { k := 5, prompt := get_prompt_template "technical" } ∧
      (run_qa_chain id (fun _ _ => 0) (mkVectorStore none)
          { k := 5, prompt := get_prompt_template "technical" } "q").1 =
        id (formatPrompt (get_prompt_template "technical").template
          (String.intercalate "\n\n"
            ((retrieveDocs (fun _ _ => 0) (mkVectorStore none) "q" 5).map
              (fun d => String.mk d.page_content))) "q")) :=
  ⟨(C1_fails_only_when_uninitialized ⟨false, none⟩ "technical" id (fun _ _ => 0) "q").1 rfl,
   (C1_fails_only_when_uninitialized (mkVectorStore none) "technical" id (fun _ _ => 0) "q").2 rfl⟩

/-- C2 counterexample: for the unsupported path `resume.xyz`,
`load_document` returns normally with an empty list (the internal
`ValueError` is caught inside the function), and the value the caller
receives is identical to that for a corrupt but supported `.pdf` file —
no distinguishable unsupported-format failure reaches the caller. -/
theorem C2_counterexample :
    load_document failingPdfLoaders "resume.xyz" =
      ([], ["Error loading " ++ "resume.xyz" ++ ": " ++ ("Unsupported file type: " ++ ".xyz")]) ∧
    (load_document failingPdfLoaders "resume.xyz").1 =
      (load_document failingPdfLoaders "broken.pdf").1 := by
  constructor <;> rfl

/-- C2 (amended): an unsupported extension makes `load_document` raise a
`ValueError` internally, catch it itself, report it to the UI, and return
an empty list — the caller receives no distinguishable error value — and
`process_documents` skips the file, continuing with the remaining
files. -/
theorem C2_unsupported_extension (L : Loaders) (p : String) (rest : List String)
    (h : toLowerStr (splitextExt p) ∉ [".pdf", ".txt", ".md", ".docx"]) :
    load_document_try L p =
      Except.error (LoadErr.valueError ("Unsupported file type: " ++ toLowerStr (splitextExt p))) ∧
    load_document L p =
      ([], ["Error loading " ++ p ++ ": " ++ ("Unsupported file type: " ++ toLowerStr (splitextExt p))]) ∧
    process_documents L (p :: rest) = process_documents L rest := by
  simp only [List.mem_cons, List.not_mem_nil, or_false, not_or] at h
  obtain ⟨h1, h2, h3, h4⟩ := h
  have htry : load_document_try L p =
      Except.error (LoadErr.valueError ("Unsupported file type: " ++ toLowerStr (splitextExt p))) := by
    unfold load_document_try
    simp [h1, h2, h3, h4, Except.map]
  have hload : load_document L p =
      ([], ["Error loading " ++ p ++ ": " ++ ("Unsupported file type: " ++ toLowerStr (splitextExt p))]) := by
    unfold load_document
    rw [htry]
    rfl
  refine ⟨htry, hload, ?_⟩
  unfold process_documents
  simp [hload]

/-- C2 witness: `resume.xyz` is skipped and processing continues with
`cv.txt`. -/
theorem C2_witness :
    (toLowerStr (splitextExt "resume.xyz") ∉ [".pdf", ".txt", ".md", ".docx"]) ∧
    process_documents failingPdfLoaders ["resume.xyz", "cv.txt"] =
      process_documents failingPdfLoaders ["cv.txt"] :=
  ⟨by decide,
   (C2_unsupported_extension failingPdfLoaders "resume.xyz" ["cv.txt"] (by decide)).2.2⟩

/-- C7: when a supported file parses successfully (and the external parser
honors its contract of returning at least one segment on success), the
loader returns at least one segment, and every segment's `filename`
metadata equals the input file's basename. -/
theorem C7_load_success_filename (L : Loaders) (p : String) (docs : List Document)
    (hpdf : ∀ q r, L.pdf q = Except.ok r → r ≠ [])
    (htxt : ∀ q r, L.txt q = Except.ok r → r ≠ [])
    (hdocx : ∀ q r, L.docx q = Except.ok r → r ≠ [])
    (hok : load_document_try L p = Except.ok docs) :
    docs ≠ [] ∧ ∀ d ∈ docs, d.metadata.lookup "filename" = some (basename p) := by
  unfold load_document_try at hok
  by_cases e1 : toLowerStr (splitextExt p) = ".pdf"
  · rw [if_pos e1] at hok
    cases hres : L.pdf p with
    | error e => rw [hres] at hok; simp [Except.mapError, Except.map] at hok
    | ok r =>
      rw [hres] at hok
      simp only [Except.mapError, Except.map, Except.ok.injEq] at hok
      subst hok
      refine ⟨by simpa using hpdf p r hres, ?_⟩
      intro d hd
      rw [List.mem_map] at hd
      obtain ⟨x, _, rfl⟩ := hd
      simp [setMeta, List.lookup]
  · rw [if_neg e1] at hok
    by_cases e2 : toLowerStr (splitextExt p) = ".txt" ∨ toLowerStr (splitextExt p) = ".md"
    · rw [if_pos e2] at hok
      cases hres : L.txt p with
      | error e => rw [hres] at hok; simp [Except.mapError, Except.map] at hok
      | ok r =>
        rw [hres] at hok
        simp only [Except.mapError, Except.map, Except.ok.injEq] at hok
        subst hok
        refine ⟨by simpa using htxt p r hres, ?_⟩
        intro d hd
        rw [List.mem_map] at hd
        obtain ⟨x, _, rfl⟩ := hd
        simp [setMeta, List.lookup]
    · rw [if_neg e2] at hok
      by_cases e3 : toLowerStr (splitextExt p) = ".docx"
      · rw [if_pos e3] at hok
        cases hres : L.docx p with
        | error e => rw [hres] at hok; simp [Except.mapError, Except.map] at hok
        | ok r =>
          rw [hres] at hok
          simp only [Except.mapError, Except.map, Except.ok.injEq] at hok
          subst hok
          refine ⟨by simpa using hdocx p r hres, ?_⟩
          intro d hd
          rw [List.mem_map] at hd
          obtain ⟨x, _, rfl⟩ := hd
          simp [setMeta, List.lookup]
      · rw [if_neg e3] at hok
        simp [Except.map] at hok

/-- C7 witness: `cv.pdf` loaded by `sampleLoaders`. -/
theorem C7_witness :
    ([(⟨"pdf text".data, [("filename", "cv.pdf"), ("source", "cv.pdf")]⟩ : Document)] ≠ []) ∧
    ∀ d ∈ [(⟨"pdf text".data, [("filename", "cv.pdf"), ("source", "cv.pdf")]⟩ : Document)],
      d.metadata.lookup "filename" = some (basename "cv.pdf") :=
  C7_load_success_filename sampleLoaders "cv.pdf" _
    (fun q r h => by
      simp only [sampleLoaders, Except.ok.injEq] at h
      simp [← h])
    (fun q r h => by
      simp only [sampleLoaders, Except.ok.injEq] at h
      simp [← h])
    (fun q r h => by
      simp only [sampleLoaders, Except.ok.injEq] at h
      simp [← h])
    (by rfl)

/-- C8: the chunker is a pure function of its input documents and the
chunk-size/overlap parameters — two runs on equal inputs with equal
parameters yield equal chunk sequences. -/
theorem C8_chunker_deterministic (size₁ size₂ overlap₁ overlap₂ : Nat)
    (docs₁ docs₂ : List Document) (hs : size₁ = size₂) (ho : overlap₁ = overlap₂)
    (hd : docs₁ = docs₂) :
    split_documents size₁ overlap₁ docs₁ = split_documents size₂ overlap₂ docs₂ := by
  subst hs; subst ho; subst hd; rfl

/-- C8 witness: two runs with the configured parameters on the same
document. -/
theorem C8_witness :
    split_documents CHUNK_SIZE CHUNK_OVERLAP [⟨"Experienced Python developer".data, []⟩] =
      split_documents CHUNK_SIZE CHUNK_OVERLAP [⟨"Experienced Python developer".data, []⟩] :=
  C8_chunker_deterministic CHUNK_SIZE CHUNK_SIZE CHUNK_OVERLAP CHUNK_OVERLAP
    [⟨"Experienced Python developer".data, []⟩] [⟨"Experienced Python developer".data, []⟩]
    rfl rfl rfl

/-- C10: `process_uploaded_files` extends the session's processed-resume
list exactly when the vector-store add succeeded; on any failure path
(no uploads, nothing parsed, add failed) it returns `False` with the list
unchanged. -/
theorem C10_extend_only_on_success (L : Loaders) (vs : VectorStoreS)
    (resumes : List String) (uploaded : List UploadedFile) :
    ((process_uploaded_files L vs resumes uploaded).2.2 = false →
        (process_uploaded_files L vs resumes uploaded).2.1 = resumes) ∧
    ((process_uploaded_files L vs resumes uploaded).2.2 = true →
        (process_uploaded_files L vs resumes uploaded).2.1 =
            resumes ++ uploaded.map UploadedFile.name ∧
          process_documents L (tempPaths uploaded) ≠ [] ∧
          (add_documents vs (process_documents L (tempPaths uploaded))).2 = true) := by
  unfold process_uploaded_files
  by_cases hu : uploaded = []
  · simp [hu]
  · rw [if_neg hu]
    by_cases hd : process_documents L (tempPaths uploaded) = []
    · simp [hd]
    · rw [if_neg hd]
      by_cases hs : (add_documents vs (process_documents L (tempPaths uploaded))).2
      · simp [hs, hd]
      · simp only [Bool.not_eq_true] at hs
        simp [hs, hd]

/-- C10 witness: a successful upload extends the processed list; the
success flag was produced by a successful add. -/
theorem C10_witness :
    (process_uploaded_files sampleLoaders (mkVectorStore none) [] [⟨"resume.txt"⟩]).2.2 = true ∧
    (process_uploaded_files sampleLoaders (mkVectorStore none) [] [⟨"resume.txt"⟩]).2.1 =
        [] ++ [(⟨"resume.txt"⟩ : UploadedFile)].map UploadedFile.name ∧
      process_documents sampleLoaders (tempPaths [⟨"resume.txt"⟩]) ≠ [] ∧
      (add_documents (mkVectorStore none)
        (process_documents sampleLoaders (tempPaths [⟨"resume.txt"⟩]))).2 = true :=
  ⟨by decide,
   (C10_extend_only_on_success sampleLoaders (mkVectorStore none) [] [⟨"resume.txt"⟩]).2
     (by decide)⟩

/-! ### Lemmas for the chunk-size bound of the splitter -/

theorem trimChars_length_le (l : List Char) : (trimChars l).length ≤ l.length := by
  unfold trimChars
  have h1 := (List.dropWhile_sublist (l := l) Char.isWhitespace).length_le
  have h2 :=
    (List.dropWhile_sublist (l := (l.dropWhile Char.isWhitespace).reverse)
      Char.isWhitespace).length_le
  simp only [List.length_reverse] at h2 ⊢
  omega

theorem sumLen_nil : sumLen [] = 0 := rfl

theorem sumLen_append (a b : List (List Char)) : sumLen (a ++ b) = sumLen a + sumLen b := by
  simp [sumLen]

theorem sumLen_single (d : List Char) : sumLen [d] = d.length := by
  simp [sumLen]

theorem sumLen_flatten (l : List (List Char)) : l.flatten.length = sumLen l := by
  simp [sumLen, List.length_flatten]

theorem joinDocs_length_le {cur : List (List Char)} {d : List Char}
    (h : d ∈ (joinDocs cur).toList) : d.length ≤ sumLen cur := by
  unfold joinDocs at h
  by_cases he : trimChars cur.flatten = []
  · simp [he] at h
  · rw [if_neg he] at h
    simp only [Option.toList_some, List.mem_singleton] at h
    subst h
    calc (trimChars cur.flatten).length ≤ cur.flatten.length := trimChars_length_le _
      _ = sumLen cur := sumLen_flatten cur

theorem popOverlap_post (size overlap lend : Nat) (cur : List (List Char)) :
    sumLen (popOverlap size overlap lend cur) ≤ overlap ∧
    (sumLen (popOverlap size overlap lend cur) + lend ≤ size ∨
      sumLen (popOverlap size overlap lend cur) = 0) := by
  induction cur with
  | nil => simp [popOverlap, sumLen_nil]
  | cons c cs ih =>
    unfold popOverlap
    by_cases hc :
        sumLen (c :: cs) > overlap ∨ (sumLen (c :: cs) + lend > size ∧ 0 < sumLen (c :: cs))
    · rw [if_pos hc]
      exact ih
    · rw [if_neg hc]
      push_neg at hc
      omega

theorem mergeLoop_bound (size overlap : Nat) :
    ∀ (splits cur : List (List Char)), sumLen cur ≤ size →
      (∀ s ∈ splits, s.length < size) →
      ∀ c ∈ mergeLoop size overlap cur splits, c.length ≤ size := by
  intro splits
  induction splits with
  | nil =>
    intro cur hcur _ c hc
    simp only [mergeLoop] at hc
    exact le_trans (joinDocs_length_le hc) hcur
  | cons d ds ih =>
    intro cur hcur hs c hc
    simp only [mergeLoop] at hc
    have hd : d.length < size := hs d (by simp)
    have hds : ∀ s ∈ ds, s.length < size := fun s h => hs s (by simp [h])
    by_cases hov : sumLen cur + d.length > size
    · rw [if_pos hov] at hc
      by_cases hnil : cur = []
      · rw [if_pos hnil] at hc
        refine ih [d] ?_ hds c hc
        rw [sumLen_single]
        omega
      · rw [if_neg hnil] at hc
        rcases List.mem_append.mp hc with h1 | h2
        · exact le_trans (joinDocs_length_le h1) hcur
        · refine ih _ ?_ hds c h2
          have hp := popOverlap_post size overlap d.length cur
          rw [sumLen_append, sumLen_single]
          omega
    · rw [if_neg hov] at hc
      refine ih _ ?_ hds c hc
      rw [sumLen_append, sumLen_single]
      omega

theorem mergeSplits_bound (size overlap : Nat) (splits : List (List Char))
    (hs : ∀ s ∈ splits, s.length < size) :
    ∀ c ∈ mergeSplits size overlap splits, c.length ≤ size :=
  mergeLoop_bound size overlap splits [] (by simp [sumLen_nil]) hs

theorem splitWithSep_empty_mem {text : List Char} {s : List Char}
    (h : s ∈ splitWithSep [] text) : s.length = 1 := by
  unfold splitWithSep at h
  rw [if_pos rfl] at h
  have h2 := List.mem_of_mem_filter h
  rw [List.mem_map] at h2
  obtain ⟨c, _, rfl⟩ := h2
  rfl

theorem chooseSep_spec :
    ∀ (seps : List (List Char)) (text : List Char), seps ≠ [] →
      seps.getLast? = some [] →
      ((chooseSep seps text).2 = [] → (chooseSep seps text).1 = []) ∧
      ((chooseSep seps text).2 ≠ [] →
        (chooseSep seps text).2.getLast? = some [] ∧
        (chooseSep seps text).2.length < seps.length) := by
  intro seps
  induction seps with
  | nil => intro text h; exact absurd rfl h
  | cons s rest ih =>
    intro text _ hlast
    cases rest with
    | nil =>
      have hs : s = [] := by simpa using hlast
      subst hs
      simp [chooseSep]
    | cons s2 rest2 =>
      rw [List.getLast?_cons_cons] at hlast
      by_cases h0 : s = []
      · simp [chooseSep, h0]
      · by_cases hocc : containsSub s text = true
        · simp only [chooseSep, if_neg h0, if_pos hocc]
          refine ⟨fun h => absurd h (by simp), fun _ => ⟨hlast, by simp⟩⟩
        · simp only [chooseSep, if_neg h0, if_neg hocc]
          obtain ⟨ha, hb⟩ := ih text (by simp) hlast
          refine ⟨ha, fun h => ?_⟩
          obtain ⟨hb1, hb2⟩ := hb h
          exact ⟨hb1, by simpa using Nat.lt_succ_of_lt hb2⟩

theorem splitGo_bound (size : Nat) (mergeF : List (List Char) → List (List Char))
    (recurse : Option (List Char → List (List Char)))
    (hmerge : ∀ gs, (∀ g ∈ gs, g.length < size) → ∀ c ∈ mergeF gs, c.length ≤ size)
    (hrec : ∀ f, recurse = some f → ∀ t, ∀ c ∈ f t, c.length ≤ size) :
    ∀ splits, (recurse = none → ∀ s ∈ splits, s.length < size) →
      ∀ good, (∀ g ∈ good, g.length < size) →
      ∀ c ∈ splitGo size mergeF recurse good splits, c.length ≤ size := by
  intro splits
  induction splits with
  | nil =>
    intro _ good hgood c hc
    simp only [splitGo] at hc
    by_cases hg : good = []
    · rw [if_pos hg] at hc
      simp at hc
    · rw [if_neg hg] at hc
      exact hmerge good hgood c hc
  | cons s ss ih =>
    intro hnone good hgood c hc
    simp only [splitGo] at hc
    have hnone2 : recurse = none → ∀ t ∈ ss, t.length < size :=
      fun h t ht => hnone h t (by simp [ht])
    by_cases hlen : s.length < size
    · rw [if_pos hlen] at hc
      refine ih hnone2 (good ++ [s]) ?_ c hc
      intro g hg
      rcases List.mem_append.mp hg with h1 | h2
      · exact hgood g h1
      · rw [List.mem_singleton] at h2
        subst h2
        exact hlen
    · rw [if_neg hlen] at hc
      rcases List.mem_append.mp hc with hc1 | hc3
      · rcases List.mem_append.mp hc1 with hc1 | hc2
        · by_cases hg : good = []
          · rw [if_pos hg] at hc1
            simp at hc1
          · rw [if_neg hg] at hc1
            exact hmerge good hgood c hc1
        · cases hr : recurse with
          | none =>
            exact absurd (hnone hr s (by simp)) hlen
          | some f =>
            rw [hr] at hc2
            exact hrec f hr s c hc2
      · exact ih hnone2 [] (by simp) c hc3

theorem splitTextRec_bound (size overlap : Nat) (hsize : 1 < size) :
    ∀ (fuel : Nat) (seps : List (List Char)) (text : List Char), seps ≠ [] →
      seps.getLast? = some [] →
      ∀ c ∈ splitTextRec size overlap fuel seps text, c.length ≤ size := by
  intro fuel
  induction fuel with
  | zero =>
    intro seps text _ _ c hc
    simp [splitTextRec] at hc
  | succ n ih =>
    intro seps text hne hlast c hc
    simp only [splitTextRec] at hc
    obtain ⟨hc1, hc2⟩ := chooseSep_spec seps text hne hlast
    refine splitGo_bound size (mergeSplits size overlap) _
      (fun gs hgs => mergeSplits_bound size overlap gs hgs) ?_ _ ?_ [] (by simp) c hc
    · intro f hf t d hd
      by_cases h2 : (chooseSep seps text).2 = []
      · rw [if_pos h2] at hf
        exact absurd hf (by simp)
      · rw [if_neg h2] at hf
        rw [Option.some_inj] at hf
        subst hf
        exact ih (chooseSep seps text).2 t h2 (hc2 h2).1 d hd
    · intro hn t ht
      by_cases h2 : (chooseSep seps text).2 = []
      · rw [hc1 h2] at ht
        have := splitWithSep_empty_mem ht
        omega
      · rw [if_neg h2] at hn
        exact absurd hn (by simp)

/-- C4 (amended): every chunk produced by the configured chunker is at
most `CHUNK_SIZE` (800) characters long and carries the metadata of its
parent document; consecutive chunks need not overlap by exactly
`CHUNK_OVERLAP` characters (the overlap is bounded by it but can be
smaller, including zero). -/
theorem C4_chunk_bound_metadata (docs : List Document) (chunk : Document)
    (h : chunk ∈ textSplitterSplit docs) :
    chunk.page_content.length ≤ CHUNK_SIZE ∧
    ∃ parent ∈ docs, chunk.metadata = parent.metadata := by
  unfold textSplitterSplit split_documents at h
  rw [List.mem_flatMap] at h
  obtain ⟨d, hd, hc⟩ := h
  rw [List.mem_map] at hc
  obtain ⟨t, ht, rfl⟩ := hc
  refine ⟨?_, d, hd, rfl⟩
  unfold split_text at ht
  exact splitTextRec_bound CHUNK_SIZE CHUNK_OVERLAP (by norm_num [CHUNK_SIZE])
    defaultSeparators.length defaultSeparators d.page_content (by simp [defaultSeparators])
    (by simp [defaultSeparators]) t ht

/-- C4 witness: the single chunk of a short document obeys the bound and
keeps its parent's metadata. -/
theorem C4_witness :
    ((⟨"hello world".data, [("filename", "r.txt")]⟩ : Document) ∈
        textSplitterSplit [⟨"hello world".data, [("filename", "r.txt")]⟩]) ∧
    ("hello world".data.length ≤ CHUNK_SIZE ∧
      ∃ parent ∈ [(⟨"hello world".data, [("filename", "r.txt")]⟩ : Document)],
        [("filename", "r.txt")] = parent.metadata) :=
  ⟨by decide,
   C4_chunk_bound_metadata [⟨"hello world".data, [("filename", "r.txt")]⟩]
     ⟨"hello world".data, [("filename", "r.txt")]⟩ (by decide)⟩

/-- C4 counterexample: this document is split into two consecutive chunks
(101 repetitions of `a`, then 698 of `b`) that do not overlap at all — the
last 100 characters of the first chunk differ from the first 100 of the
second — refuting the exact-100-character-overlap reading. -/
theorem C4_counterexample :
    (textSplitterSplit
        [⟨List.replicate 101 'a' ++ '\n' :: '\n' :: List.replicate 698 'b',
          [("filename", "r.txt")]⟩]).map Document.page_content =
      [List.replicate 101 'a', List.replicate 698 'b'] ∧
    ¬ ((List.replicate 101 'a').drop (101 - 100) =
        (List.replicate 698 'b').take 100) := by
  constructor
  · decide
  · decide
